import Mathlib

/-!
Shallow embedding of the `dbb_buffmngrs_handoff` pipeline engine
(`src/python/lsst/dbb/buffmngrs/handoff/`): message dataclasses, the
`get_checksum`/`get_chunk` utilities, the `execute` subprocess wrapper, the
`Porter` transfer engine, the local `Finder`/`Mover`/`Eraser` commands, and
the `Manager` loop with its tracker/recorder phases.  Machine-level effects
(filesystem, subprocesses, SQLAlchemy session) are represented by explicit
state and by oracle functions supplying the outcomes of the effectful calls
(command exit data, clock readings, query/commit failures).
-/

namespace DbbHandoff

/-- `messages.FileMsg`: a message about one file.  `head`, `tail` and `name`
are always populated by the producers modelled here; `size` and `timestamp`
default to `None` in the source, modelled as `Option`. -/
structure FileMsg where
  head : String := ""
  tail : String := ""
  name : String := ""
  size : Option Nat := none
  timestamp : Option ℚ := none
deriving Repr, DecidableEq

/-- The value stored in a duration field of a `TransferMsg`.  The source is
dynamically typed: `Porter.run` assigns either a float obtained from
`timedelta.total_seconds()` (constructor `flt`) or, in one code path, a raw
`datetime.timedelta` object (constructor `td`).  Both carry the amount of
seconds as a rational. -/
inductive PyDur where
  | none : PyDur
  | flt (seconds : ℚ) : PyDur
  | td (seconds : ℚ) : PyDur
deriving Repr, DecidableEq

/-- `messages.TransferMsg`: a message about one transfer batch. -/
structure TransferMsg where
  pre_start : Option ℚ := none
  pre_duration : PyDur := .none
  trans_start : Option ℚ := none
  trans_duration : PyDur := .none
  post_start : Option ℚ := none
  post_duration : PyDur := .none
  size : Nat := 0
  rate : Option ℚ := none
  status : Option Int := none
  error : Option String := none
  files : List (String × String × String) := []
deriving Repr, DecidableEq

/-- Successive chunks of at most `n` elements, as produced by repeatedly
calling `utils.get_chunk(q, size=n)` until the queue is empty.  With
`n = 0`, `get_chunk` returns `[]` on a non-empty queue (and the file-reading
loop of `get_checksum` reads nothing), so the result is empty.  The `fuel`
argument merely bounds the recursion depth structurally so that the
definition computes inside the kernel; every caller passes the length of
the list, which the loop never exceeds. -/
def chunksOfFuel (n : Nat) : Nat → List α → List (List α)
  | _, [] => []
  | 0, _ :: _ => []
  | fuel + 1, x :: xs =>
      if n = 0 then []
      else (x :: xs).take n :: chunksOfFuel n fuel ((x :: xs).drop n)

/-- `chunksOfFuel` with adequate fuel. -/
def chunksOf (n : Nat) (l : List α) : List (List α) :=
  chunksOfFuel n l.length l

theorem chunksOfFuel_fuel_irrel (n : Nat) (hn : n ≠ 0) :
    ∀ (fuel fuel' : Nat) (l : List α), l.length ≤ fuel → l.length ≤ fuel' →
      chunksOfFuel n fuel l = chunksOfFuel n fuel' l := by
  intro fuel
  induction fuel with
  | zero =>
      intro fuel' l hl _
      cases l with
      | nil => cases fuel' <;> rfl
      | cons x xs => simp at hl
  | succ fuel ih =>
      intro fuel' l hl hl'
      cases l with
      | nil => cases fuel' <;> rfl
      | cons x xs =>
          cases fuel' with
          | zero => simp at hl'
          | succ fuel' =>
              rw [chunksOfFuel, chunksOfFuel, if_neg hn, if_neg hn]
              have hd : ((x :: xs).drop n).length ≤ fuel := by
                simp only [List.length_drop, List.length_cons]
                simp only [List.length_cons] at hl
                omega
              have hd' : ((x :: xs).drop n).length ≤ fuel' := by
                simp only [List.length_drop, List.length_cons]
                simp only [List.length_cons] at hl'
                omega
              rw [ih _ _ hd hd']

theorem chunksOf_join (n : Nat) (hn : n ≠ 0) (l : List α) :
    (chunksOf n l).foldl (· ++ ·) [] = l := by
  suffices h : ∀ (fuel : Nat) (l acc : List α), l.length ≤ fuel →
      (chunksOfFuel n fuel l).foldl (· ++ ·) acc = acc ++ l by
    simpa using h l.length l [] le_rfl
  intro fuel
  induction fuel with
  | zero =>
      intro l acc hl
      cases l with
      | nil => simp [chunksOfFuel]
      | cons x xs => simp at hl
  | succ fuel ih =>
      intro l acc hl
      cases l with
      | nil => simp [chunksOfFuel]
      | cons x xs =>
          rw [chunksOfFuel, if_neg hn, List.foldl_cons, ih _ _ (by
            simp only [List.length_drop, List.length_cons]
            simp only [List.length_cons] at hl
            omega), List.append_assoc, List.take_append_drop]

/-- The hash constructors provided by the `methods` dictionary of
`utils.get_checksum`. -/
inductive HashAlg where
  | blake2b : HashAlg
  | md5 : HashAlg
  | sha1 : HashAlg
deriving Repr, DecidableEq

/-- `methods.get(method, hashlib.blake2b)`: the dictionary lookup with
BLAKE2b as the default for any unsupported method name. -/
def methodsGet (method : String) : HashAlg :=
  if method = "blake2" then .blake2b
  else if method = "md5" then .md5
  else if method = "sha1" then .sha1
  else .blake2b

/-- `utils.get_checksum`: the file is read in `block_size` blocks and each
block is fed to the hasher; the digest is a pure function of the selected
algorithm and the concatenation of the fed blocks, so the model returns that
pair (`hexdigest` itself is injective in these and adds nothing checkable).
The file contents are given as the byte list `data`. -/
def get_checksum (data : List Nat) (method : String := "blake2")
    (block_size : Nat := 4096) : HashAlg × List Nat :=
  (methodsGet method, (chunksOf block_size data).foldl (· ++ ·) [])

/-- Feeding the file block by block consumes exactly the file's bytes. -/
theorem get_checksum_feeds_whole_file (data : List Nat) (method : String)
    (block_size : Nat) (h : block_size ≠ 0) :
    (get_checksum data method block_size).2 = data := by
  simp [get_checksum, chunksOf_join block_size h]

/-- What the child process spawned by `remote.execute` did: exit with a
code, exceed the timeout (`subprocess.TimeoutExpired`), or make
`subprocess.run` raise some other exception (for instance
`FileNotFoundError` when the executable does not exist, carried here as a
description string). -/
inductive RunOutcome where
  | exited (code : Int) (out err : String) : RunOutcome
  | timedOut (out err : String) : RunOutcome
  | raised (exc : String) : RunOutcome
deriving Repr, DecidableEq

/-- The remote-I/O-error sentinel, errno EREMOTEIO on Linux. -/
def remoteIOError : Int := 121

/-- `errno.ETIME` on Linux. -/
def ETIME : Int := 62

/-- `remote.execute`: with `check=True`, a non-zero child exit raises
`subprocess.CalledProcessError`, caught and mapped to `remoteIOError`
(errno EREMOTEIO); an
expired timeout raises `subprocess.TimeoutExpired`, caught and mapped to
`ETIME`; a zero exit reaches the `else` branch with status
`proc.returncode = 0`.  No other exception is handled, so any other
exception propagates to the caller (`Except.error`).  `dur` is the measured
wall-clock duration. -/
def execute (outcome : RunOutcome) (dur : ℚ) :
    Except String (Int × String × String × ℚ) :=
  match outcome with
  | .exited code out err =>
      if code ≠ 0 then .ok (remoteIOError, out, err, dur)
      else .ok (0, out, err, dur)
  | .timedOut out err => .ok (ETIME, out, err, dur)
  | .raised exc => .error exc

/-- A directory tree on the handoff site: name, subdirectories, files. -/
inductive FsDir where
  | mk (name : String) (subdirs : List FsDir) (files : List String) : FsDir

/-- Subdirectories of a directory node. -/
def FsDir.subdirs : FsDir → List FsDir
  | .mk _ s _ => s

/-- Plain files of a directory node. -/
def FsDir.files : FsDir → List String
  | .mk _ _ f => f

/-- Name of a directory node. -/
def FsDir.dirName : FsDir → String
  | .mk n _ _ => n

/-- `len(os.listdir(path)) == 0`: the directory has no entries. -/
def FsDir.isEmptyDir (d : FsDir) : Bool :=
  d.subdirs.isEmpty && d.files.isEmpty

/-- The removal candidates collected by the first loop of `Eraser.run`:
`os.walk(root, topdown=False)` visits every directory of the tree, and for
each visited directory `topdir` the loop appends `os.path.join(topdir,
name)` for each subdirectory `name` whose listing is empty.  Paths are
modelled as segment lists; `pfx` is the path of the node being walked.
Only joined paths `topdir/name` are ever appended, so the walk root itself
is never a candidate. -/
def eraserCandidates : List String → FsDir → List (List String)
  | pfx, .mk _ subdirs _ =>
      (subdirs.attach.map
        (fun s => eraserCandidates (pfx ++ [s.1.dirName]) s.1)).flatten
      ++ (subdirs.filter FsDir.isEmptyDir).map (fun sub => pfx ++ [sub.dirName])
decreasing_by
  have := List.sizeOf_lt_of_mem s.2
  simp only [FsDir.mk.sizeOf_spec]
  omega

/-- The second loop of `Eraser.run`: each candidate whose mtime is older
than `exp_time` is removed with `os.rmdir` (which may itself fail, oracle
`rmdirFails`). -/
def eraserRemoved (root : List String) (tree : FsDir) (now exp_time : ℚ)
    (mtime : List String → ℚ) (rmdirFails : List String → Bool) :
    List (List String) :=
  (eraserCandidates root tree).filter
    (fun p => decide (now - mtime p > exp_time) && !rmdirFails p)

theorem eraserCandidates_longer (pfx : List String) (d : FsDir) :
    ∀ p ∈ eraserCandidates pfx d, pfx.length < p.length := by
  induction pfx, d using eraserCandidates.induct with
  | _ pfx name subdirs files ih =>
      intro p hp
      rw [eraserCandidates] at hp
      rcases List.mem_append.mp hp with h | h
      · rcases List.mem_flatten.mp h with ⟨contrib, hc, hpc⟩
        rcases List.mem_map.mp hc with ⟨s, hs, rfl⟩
        have := ih s p hpc
        simp only [List.length_append, List.length_cons, List.length_nil] at this
        omega
      · rcases List.mem_map.mp h with ⟨sub, _, rfl⟩
        simp

/-- The body of the `while` loop of `Mover.run`, processing the messages of
the `processed` queue front to back.  `root` is the holding area
(`self.root`); `okF k` tells whether the `shutil.move` of the `k`-th message
succeeds (`false` models an `OSError`); `nowF k` is
`datetime.now().timestamp()` at the `k`-th success.  On failure the message
is dropped (`continue`); on success `head` and `timestamp` are rewritten
and the message is pushed onto the output queue. -/
def moverRunFrom (root : String) (okF : Nat → Bool) (nowF : Nat → ℚ) :
    Nat → List FileMsg → List FileMsg
  | _, [] => []
  | k, msg :: rest =>
      if okF k then
        { msg with head := root, timestamp := some (nowF k) }
          :: moverRunFrom root okF nowF (k + 1) rest
      else moverRunFrom root okF nowF (k + 1) rest

/-- `Mover.run`: drain the input queue, starting at message index 0. -/
def moverRun (root : String) (okF : Nat → Bool) (nowF : Nat → ℚ)
    (inp : List FileMsg) : List FileMsg :=
  moverRunFrom root okF nowF 0 inp

theorem moverRunFrom_eq (root : String) (okF : Nat → Bool) (nowF : Nat → ℚ) :
    ∀ (k : Nat) (inp : List FileMsg),
      moverRunFrom root okF nowF k inp =
        ((inp.enumFrom k).filter (fun p => okF p.1)).map
          (fun p => { p.2 with head := root, timestamp := some (nowF p.1) }) := by
  intro k inp
  induction inp generalizing k with
  | nil => rfl
  | cons msg rest ih =>
      rw [moverRunFrom]
      by_cases h : okF k
      · simp [List.enumFrom, List.filter, h, ih]
      · simp only [h, Bool.false_eq_true, if_false, List.enumFrom]
        rw [List.filter_cons]
        simp [h, ih]

theorem moverRun_mem (root : String) (okF : Nat → Bool) (nowF : Nat → ℚ)
    (inp : List FileMsg) :
    ∀ m ∈ moverRun root okF nowF inp,
      ∃ msg ∈ inp, m.tail = msg.tail ∧ m.name = msg.name ∧
        m.size = msg.size ∧ m.head = root := by
  intro m hm
  rw [moverRun, moverRunFrom_eq] at hm
  rcases List.mem_map.mp hm with ⟨p, hp, rfl⟩
  have hp' := List.mem_of_mem_filter hp
  refine ⟨p.2, ?_, rfl, rfl, rfl, rfl⟩
  have := List.mem_enumFrom hp'
  exact List.mem_iff_get.mpr ⟨⟨p.1 - 0, by
    have h1 := this.2.1
    omega⟩, by
      have h2 := this.2.2
      simpa using h2.symm⟩

/-- Characters matched by the regular-expression class `\w`. -/
def isWordChar (c : Char) : Bool :=
  c.isAlphanum || c = '_'

/-- `re.findall(r"{(\w+)}", cmd)`: scan left to right; at each `{` try to
read one or more word characters followed by `}`; on success the captured
name is collected and scanning resumes after the `}`, otherwise scanning
resumes at the next character.  The structural `fuel` (the scanned list's
length at every call site) makes the definition compute in the kernel. -/
def findPlaceholdersFuel : Nat → List Char → List String
  | _, [] => []
  | 0, _ :: _ => []
  | fuel + 1, '{' :: rest =>
      match rest.dropWhile isWordChar with
      | '}' :: tail =>
          if (rest.takeWhile isWordChar).isEmpty then
            findPlaceholdersFuel fuel rest
          else String.mk (rest.takeWhile isWordChar)
            :: findPlaceholdersFuel fuel tail
      | _ => findPlaceholdersFuel fuel rest
  | fuel + 1, _ :: rest => findPlaceholdersFuel fuel rest

/-- Placeholder names of a template string. -/
def placeholdersOf (s : String) : List String :=
  findPlaceholdersFuel s.data.length s.data

/-- `re.sub(r"(batch|file)", "source", cmd)`: replace every occurrence of
the substring `batch` or `file` (the alternation tries `batch` first at
each position) by `source`; `fuel` as in `findPlaceholdersFuel`. -/
def subBatchFileFuel : Nat → List Char → List Char
  | _, [] => []
  | 0, l@(_ :: _) => l
  | fuel + 1, c :: rest =>
      if (c :: rest).take 5 = "batch".data then
        "source".data ++ subBatchFileFuel fuel ((c :: rest).drop 5)
      else if (c :: rest).take 4 = "file".data then
        "source".data ++ subBatchFileFuel fuel ((c :: rest).drop 4)
      else c :: subBatchFileFuel fuel rest

/-- String-level interface of `subBatchFileFuel`. -/
def subBatchFile (s : String) : String :=
  String.mk (subBatchFileFuel s.data.length s.data)

/-- The Python `in` test on strings: `pat` occurs as a substring. -/
def hasSubstr (pat : List Char) : List Char → Bool
  | [] => pat.isEmpty
  | c :: rest => pat.isPrefixOf (c :: rest) || hasSubstr pat rest

/-- `tpl.format(**args)` restricted to the placeholder shapes produced in
this code base: every `{name}` whose `name` is bound in `args` is replaced
by its value.  (On an unbound name Python raises `KeyError`; the callers
modelled here only format templates whose placeholders were either
validated at `Porter` construction or are bound at the call, and the model
leaves an unbound placeholder in place, the formatted string reaching only
the command oracle.) -/
def formatCharsFuel (args : List (String × String)) : Nat → List Char → List Char
  | _, [] => []
  | 0, l@(_ :: _) => l
  | fuel + 1, '{' :: rest =>
      match rest.dropWhile isWordChar with
      | '}' :: tail =>
          match args.lookup (String.mk (rest.takeWhile isWordChar)) with
          | some v => v.data ++ formatCharsFuel args fuel tail
          | none => '{' :: formatCharsFuel args fuel rest
      | _ => '{' :: formatCharsFuel args fuel rest
  | fuel + 1, c :: rest => c :: formatCharsFuel args fuel rest

/-- String-level interface of `formatCharsFuel`. -/
def formatTpl (tpl : String) (args : List (String × String)) : String :=
  String.mk (formatCharsFuel args tpl.data.length tpl.data)

/-- Exceptions raised by the constructors and helpers modelled here. -/
inductive PyErr where
  | valueError (msg : String) : PyErr
  | keyError (key : String) : PyErr
  | typeError (msg : String) : PyErr
deriving Repr, DecidableEq

/-- An endpoint configuration dictionary: the scalar entries (`user`,
`host`, `buffer`, `staging`, `port`, ...) and the optional nested
`commands` dictionary. -/
structure EndpointConfig where
  scalars : List (String × String) := []
  commands : Option (List (String × String)) := none
deriving Repr, DecidableEq

/-- `set(config)`: the keys of the configuration dictionary. -/
def EndpointConfig.keys (c : EndpointConfig) : List String :=
  c.scalars.map Prod.fst ++ (match c.commands with
    | some _ => ["commands"]
    | none => [])

/-- `remote.keywords`: the computed placeholder names always allowed in a
command template. -/
def keywordsList : List String := ["batch", "command", "dest", "file"]

/-- The required configuration keys of `Porter.__init__`. -/
def porterRequired : List String := ["user", "host", "buffer", "commands"]

/-- The state built by a successful `Porter.__init__`. -/
structure PorterState where
  cmds : List (String × String)
  params : List (String × String)
  batch_mode : Bool
  chunk_size : Nat
deriving Repr, DecidableEq

/-- Replace the value bound to `key` in an association list. -/
def assocSet (key : String) (v : String) :
    List (String × String) → List (String × String)
  | [] => []
  | (k, w) :: rest =>
      if k = key then (k, v) :: rest else (k, w) :: assocSet key v rest

/-- The placeholders of `cmd` that are neither configured parameters nor
computed keywords (`undefined = formal - actual - keywords`). -/
def undefinedPlaceholders (params : List (String × String)) (cmd : String) :
    List String :=
  (placeholdersOf cmd).filter
    (fun p => !(params.map Prod.fst).contains p && !keywordsList.contains p)

/-- `Porter.__init__`: check the required keys; split off `commands` from
the parameters; reject any command template using an undefined placeholder;
set `batch_mode` from a plain substring test `"batch" in
self.cmds["transfer"]`; finally rewrite `batch`/`file` to `source` in the
transfer template (`re.sub`).  Accessing `self.cmds["transfer"]` with no
`transfer` entry raises `KeyError`. -/
def porterInit (config : EndpointConfig) (chunk_size : Nat := 1) :
    Except PyErr PorterState :=
  let missing := porterRequired.filter (fun k => !config.keys.contains k)
  if missing ≠ [] then
    .error (.valueError ("Invalid configuration: " ++
      String.intercalate ", " missing ++ " not provided."))
  else
    match config.commands with
    | none => .error (.keyError "commands")
    | some cmds =>
        let params := config.scalars
        match cmds.find? (fun kv => !(undefinedPlaceholders params kv.2).isEmpty) with
        | some kv =>
            .error (.valueError ("parameters " ++
              String.intercalate ", " (undefinedPlaceholders params kv.2) ++
              " are used, but not defined in '" ++ kv.2 ++ "'"))
        | none =>
            match cmds.lookup "transfer" with
            | none => .error (.keyError "transfer")
            | some tcmd =>
                let bm := hasSubstr "batch".data tcmd.data
                .ok { cmds := assocSet "transfer"
                        (subBatchFile tcmd) cmds,
                      params := params,
                      batch_mode := bm,
                      chunk_size := chunk_size }

/-- `porterInit` returned a state rather than raising. -/
def porterInitOk (config : EndpointConfig) (chunk_size : Nat := 1) : Bool :=
  match porterInit config chunk_size with
  | .ok _ => true
  | .error _ => false

/-- `os.path.join` for the argument shapes occurring in this code base
(second component never absolute). -/
def pathJoin (a b : String) : String := a ++ "/" ++ b

/-- The data returned by one `execute` call that did not raise: exit
status, stdout, stderr and the measured duration (a `timedelta`, carried as
seconds). -/
structure CmdRes where
  status : Int
  stdout : String
  stderr : String
  dur : ℚ
deriving Repr, DecidableEq

/-- `sizes[fn]` where `sizes = {item.name: item.size for item in files}`:
dictionary comprehension, so the last item with a given name wins.  The
sizes of items reaching the Porter were set by the Finder, so the `None`
default is never read (`getD 0`). -/
def sizesGet (files : List FileMsg) (fn : String) : Nat :=
  match files.reverse.find? (fun m => m.name = fn) with
  | some m => m.size.getD 0
  | none => 0

/-- Insert a message into the bucket of its `(head, tail)` key, preserving
the insertion order of `dict.setdefault`. -/
def groupInsert (key : String × String) (m : FileMsg) :
    List ((String × String) × List FileMsg) →
    List ((String × String) × List FileMsg)
  | [] => [(key, [m])]
  | (k, ms) :: rest =>
      if k = key then (k, ms ++ [m]) :: rest
      else (k, ms) :: groupInsert key m rest

/-- The `mapping` dictionary of `Porter.run`: partition a chunk into
buckets keyed by `(head, tail)`. -/
def groupByLoc (files : List FileMsg) :
    List ((String × String) × List FileMsg) :=
  files.foldl (fun gs m => groupInsert (m.head, m.tail) m gs) []

/-- Phase B of `Porter.run` (the transfer loop): walk the zipped batches
and transfer messages, issuing one transfer command per batch.  Returns the
failed messages flushed inside the loop, the `relocated` pairs of surviving
batches with their updated messages, and the advanced invocation
counter. -/
def phaseB (params : List (String × String)) (tplT : String)
    (head tail dest : String) (execF : Nat → String → CmdRes)
    (clockF : Nat → ℚ) :
    Nat → List (List String) → List TransferMsg →
    List TransferMsg × List (List String × TransferMsg) × Nat
  | k, [], _ => ([], [], k)
  | k, _ :: _, [] => ([], [], k)
  | k, b :: bs, t :: ts =>
      let src := String.intercalate " "
        (b.map (fun name => pathJoin (pathJoin head tail) name))
      let cmd := formatTpl tplT (params ++ [("source", src), ("dest", dest)])
      let start := clockF k
      let res := execF k cmd
      let t' := { t with trans_start := some start,
                         trans_duration := .flt res.dur,
                         status := some res.status,
                         error := some res.stderr }
      let rest := phaseB params tplT head tail dest execF clockF (k + 1) bs ts
      if res.status ≠ 0 then (t' :: rest.1, rest.2.1, rest.2.2)
      else
        let r : ℚ := (t'.size : ℚ) / res.dur / 1048576
        let t'' := { t' with rate := some r }
        (rest.1, (b, t'') :: rest.2.1, rest.2.2)

/-- The `mv` loop of phase C of `Porter.run`: per surviving batch, move the
staged files into the endpoint buffer.  `total` is the accumulated duration
of the phase-C `mkdir` (it is *not* advanced by the `mv` durations).
Returns the messages flushed on failure, the `completed` messages, and the
advanced counter. -/
def phaseCmv (params : List (String × String)) (tplR : String)
    (stage tail dest : String) (total : ℚ)
    (execF : Nat → String → CmdRes) (clockF : Nat → ℚ) :
    Nat → List (List String) → List TransferMsg →
    List TransferMsg × List TransferMsg × Nat
  | k, [], _ => ([], [], k)
  | k, _ :: _, [] => ([], [], k)
  | k, b :: bs, t :: ts =>
      let src := String.intercalate " "
        (b.map (fun name => pathJoin (pathJoin stage tail) name))
      let cmd := formatTpl tplR
        (params ++ [("command", "mv " ++ src ++ " " ++ dest)])
      let start := clockF k
      let res := execF k cmd
      let t' := { t with post_start := some start,
                         post_duration := .flt (total + res.dur),
                         status := some res.status,
                         error := some res.stderr }
      let rest := phaseCmv params tplR stage tail dest total execF clockF
        (k + 1) bs ts
      if res.status ≠ 0 then (t' :: rest.1, rest.2.1, rest.2.2)
      else (rest.1, t' :: rest.2.1, rest.2.2)

/-- The body of `for location, files in mapping.items()` in `Porter.run`
(remote.py lines 139-266): build the batches and their transfer messages,
run phase A (ensure the staging subdirectory), phase B (transfer each
batch), and — when a separate staging area is configured — phase C (ensure
the buffer subdirectory, then move each batch).  Returns the transfer
messages flushed to the output queue, in flush order, with the advanced
command-invocation counter. -/
def processLocation (P : PorterState) (stage buffer : String)
    (execF : Nat → String → CmdRes) (clockF : Nat → ℚ) (k : Nat)
    (head tail : String) (files : List FileMsg) :
    List TransferMsg × Nat :=
  let filenames := files.map FileMsg.name
  let batch_size := if P.batch_mode then filenames.length else 1
  let batches := chunksOf batch_size filenames
  let transfers : List TransferMsg := batches.map (fun b =>
    { files := b.map (fun fn => (head, tail, fn)),
      size := (b.map (sizesGet files)).sum })
  let dest := pathJoin stage tail
  let tplR := (P.cmds.lookup "remote").getD ""
  let cmdA := formatTpl tplR
    (P.params ++ [("command", "mkdir -p " ++ dest)])
  let startA := clockF k
  let resA := execF k cmdA
  let k := k + 1
  let transfers := transfers.map (fun t =>
    { t with pre_start := some startA, pre_duration := .flt resA.dur,
             status := some resA.status, error := some resA.stderr })
  if resA.status ≠ 0 then (transfers, k)
  else
    let tplT := (P.cmds.lookup "transfer").getD ""
    let resB := phaseB P.params tplT head tail dest execF clockF k
      batches transfers
    let flushedB := resB.1
    let batches := resB.2.1.map Prod.fst
    let transfers := resB.2.1.map Prod.snd
    let k := resB.2.2
    if batches.isEmpty then (flushedB, k)
    else if stage = buffer then (flushedB ++ transfers, k)
    else
      let dest := pathJoin buffer tail
      let cmdC := formatTpl tplR
        (P.params ++ [("command", "mkdir -p " ++ dest)])
      let startC := clockF k
      let resC := execF k cmdC
      let k := k + 1
      let total := (0 : ℚ) + resC.dur
      let transfers := transfers.map (fun t =>
        { t with post_start := some startC, post_duration := .td total,
                 status := some resC.status, error := some resC.stderr })
      if resC.status ≠ 0 then (flushedB ++ transfers, k)
      else
        let resMv := phaseCmv P.params tplR stage tail dest total execF
          clockF k batches transfers
        (flushedB ++ resMv.1 ++ resMv.2.1, resMv.2.2)

/-- Process the buckets of one chunk in order, threading the invocation
counter. -/
def processGroups (P : PorterState) (stage buffer : String)
    (execF : Nat → String → CmdRes) (clockF : Nat → ℚ) :
    Nat → List ((String × String) × List FileMsg) →
    List TransferMsg × Nat
  | k, [] => ([], k)
  | k, ((head, tail), fs) :: rest =>
      let r := processLocation P stage buffer execF clockF k head tail fs
      let r' := processGroups P stage buffer execF clockF r.2 rest
      (r.1 ++ r'.1, r'.2)

/-- The chunk loop of `Porter.run`: grab up to `chunk_size` items, group
them by location and process each bucket, until the pending queue is
drained.  (With `chunk_size = 0` the source loop would spin forever taking
empty chunks; that configuration is unreachable from the defaults and the
model returns no transfers for it.) -/
def porterRunLoopFuel (P : PorterState) (stage buffer : String)
    (execF : Nat → String → CmdRes) (clockF : Nat → ℚ) :
    Nat → Nat → List FileMsg → List TransferMsg
  | _, _, [] => []
  | 0, _, _ :: _ => []
  | fuel + 1, k, x :: xs =>
      if P.chunk_size = 0 then []
      else
        let chunk := (x :: xs).take P.chunk_size
        let rest := (x :: xs).drop P.chunk_size
        let r := processGroups P stage buffer execF clockF k (groupByLoc chunk)
        r.1 ++ porterRunLoopFuel P stage buffer execF clockF fuel r.2 rest

/-- `Porter.run`: `buffer` and `stage` come from the parameters, staging
defaulting to the buffer; then the chunk loop drains the pending queue. -/
def porterRun (P : PorterState) (execF : Nat → String → CmdRes)
    (clockF : Nat → ℚ) (pending : List FileMsg) : List TransferMsg :=
  let buffer := (P.params.lookup "buffer").getD ""
  let stage := (P.params.lookup "staging").getD buffer
  porterRunLoopFuel P stage buffer execF clockF pending.length 0 pending

/-- A row of the `files` ledger table (`declaratives.File`).  Timestamps
are carried as rationals (`datetime.fromtimestamp` is injective and order
preserving, so the model keeps the raw timestamp). -/
structure FileRow where
  relpath : String
  filename : String
  checksum : String
  size_bytes : Nat
  created_on : ℚ
  held_on : Option ℚ := none
deriving Repr, DecidableEq

/-- A row of the `transfer_batches` ledger table (`declaratives.Batch`).
`files` is the many-to-many association built by
`batch.files.extend(records)`, projected to the `(relpath, filename)` keys
of the attached `File` rows.  `src_files` additionally keeps the
`(head, tail, name)` triples of the `TransferMsg` the row was built from;
the physical schema keeps that membership only through the association
table, and the field is carried so that theorems can speak about the batch
a moved file originated from. -/
structure BatchRec where
  pre_start_time : Option ℚ := none
  pre_duration : Option ℚ := none
  trans_start_time : Option ℚ := none
  trans_duration : Option ℚ := none
  post_start_time : Option ℚ := none
  post_duration : Option ℚ := none
  size_bytes : Nat := 0
  rate_mbytes_per_sec : Option ℚ := none
  status : Option Int := none
  err_msg : Option String := none
  files : List (String × String) := []
  src_files : List (String × String × String) := []
deriving Repr, DecidableEq

/-- `datetime.timedelta(seconds=d)`: defined for a float (the value itself,
in seconds); raises `TypeError` when `d` is a `timedelta` or `None`. -/
def timedeltaSeconds : PyDur → Except PyErr ℚ
  | .flt q => .ok q
  | .td _ => .error (.typeError
      "unsupported type for timedelta seconds component: datetime.timedelta")
  | .none => .error (.typeError
      "unsupported type for timedelta seconds component: NoneType")

/-- One `start, duration` conversion block of `Manager._make_batch`: when
the start is set, store `datetime.fromtimestamp(start)` and
`timedelta(seconds=duration)`. -/
def convPhase (start : Option ℚ) (d : PyDur) :
    Except PyErr (Option ℚ × Option ℚ) :=
  match start with
  | none => .ok (none, none)
  | some s => do
      let q ← timedeltaSeconds d
      .ok (some s, some q)

/-- `Manager._make_batch`: build a `Batch` row from a `TransferMsg`.  The
conversion of a duration field raises (propagating out of `Manager.run`)
when the field does not hold a number of seconds. -/
def makeBatch (msg : TransferMsg) : Except PyErr BatchRec := do
  let pre ← convPhase msg.pre_start msg.pre_duration
  let tr ← convPhase msg.trans_start msg.trans_duration
  let post ← convPhase msg.post_start msg.post_duration
  .ok { pre_start_time := pre.1, pre_duration := pre.2,
        trans_start_time := tr.1, trans_duration := tr.2,
        post_start_time := post.1, post_duration := post.2,
        size_bytes := msg.size,
        rate_mbytes_per_sec := msg.rate,
        status := msg.status,
        err_msg := msg.error.map String.trim }

/-- The per-item state of the chunk loop of `Manager._add_files`:
the `tracked` and `untracked` lists, the rows pending in the session
(`session.add` not yet committed), and the query-invocation counter. -/
structure AfSt where
  tracked : List FileMsg := []
  untracked : List FileMsg := []
  pend : List FileRow := []
  q : Nat := 0
deriving Repr, DecidableEq

/-- One iteration of the item loop of `Manager._add_files`.  `csum` is the
`get_checksum` oracle (digest of the file at a path); `qfail q` tells
whether the `q`-th ledger query raises.  A query failure triggers
`session.rollback()`, which expunges the rows added to the session earlier
in the chunk (`pend := []`) while the already-classified items stay in
their lists; the failing item itself lands in neither list.  A successful
query sees the session's pending rows too (autoflush), hence the search in
`db ++ pend`. -/
def addFilesItem (csum : String → String) (qfail : Nat → Bool)
    (db : List FileRow) (st : AfSt) (item : FileMsg) : AfSt :=
  let path := pathJoin (pathJoin item.head item.tail) item.name
  let c := csum path
  if qfail st.q then
    { st with pend := [], q := st.q + 1 }
  else if (db ++ st.pend).any (fun r =>
      r.relpath == item.tail && r.filename == item.name && r.checksum == c)
  then
    { st with tracked := st.tracked ++ [item], q := st.q + 1 }
  else
    { st with untracked := st.untracked ++ [item],
              pend := st.pend ++ [{ relpath := item.tail,
                                    filename := item.name,
                                    checksum := c,
                                    size_bytes := item.size.getD 0,
                                    created_on := item.timestamp.getD 0 }],
              q := st.q + 1 }

/-- The chunk loop of `Manager._add_files`: classify each item, then — only
when there are untracked items — commit the session (oracle `cfail` per
commit attempt, indexed by `ci`).  On commit failure the session is rolled
back and only the previously tracked items are enqueued; on success the
untracked items are appended to `tracked` and everything is enqueued.
Returns the committed rows, the enqueued items, and the advanced
counters. -/
def addFilesLoop (csum : String → String) (qfail cfail : Nat → Bool) :
    List FileRow → Nat → Nat → List (List FileMsg) →
    List FileRow × List FileMsg
  | db, _, _, [] => (db, [])
  | db, q, ci, chunk :: rest =>
      let st := chunk.foldl (addFilesItem csum qfail db) { q := q }
      if st.untracked.isEmpty then
        let r := addFilesLoop csum qfail cfail db st.q ci rest
        (r.1, st.tracked ++ r.2)
      else if cfail ci then
        let r := addFilesLoop csum qfail cfail db st.q (ci + 1) rest
        (r.1, st.tracked ++ r.2)
      else
        let r := addFilesLoop csum qfail cfail (db ++ st.pend) st.q (ci + 1) rest
        (r.1, (st.tracked ++ st.untracked) ++ r.2)

/-- `Manager._add_files`: drain the discovered queue in chunks of 10. -/
def addFiles (csum : String → String) (qfail cfail : Nat → Bool)
    (db : List FileRow) (inp : List FileMsg) : List FileRow × List FileMsg :=
  addFilesLoop csum qfail cfail db 0 0 (chunksOf 10 inp)

/-- The item loop of one chunk of `Manager._add_transfers`: for each
transfer message, query the `File` rows whose `(relpath, filename)` matches
a member of `msg.files`; skip the message when the query raises
(`qfail`, with rollback — harmless here, nothing is pending) or returns no
rows; otherwise build the batch row via `_make_batch` (whose `TypeError`
propagates, modelled as `Except.error`), attach the records, and collect
the file messages to re-emit for a successful transfer.  Returns the
chunk's batch rows, its re-emitted messages, and the advanced query
counter. -/
def addTransfersChunkItems (dbFiles : List FileRow) (qfail : Nat → Bool) :
    Nat → List TransferMsg →
    Except Unit (List BatchRec × List FileMsg × Nat)
  | q, [] => .ok ([], [], q)
  | q, item :: rest =>
      if qfail q then addTransfersChunkItems dbFiles qfail (q + 1) rest
      else
        let records := dbFiles.filter (fun r =>
          item.files.any (fun f => r.relpath == f.2.1 && r.filename == f.2.2))
        if records.isEmpty then
          addTransfersChunkItems dbFiles qfail (q + 1) rest
        else
          match makeBatch item with
          | .error _ => .error ()
          | .ok b => do
              let batch := { b with
                files := records.map (fun r => (r.relpath, r.filename)),
                src_files := item.files }
              let msgs := if item.status = some 0 then
                  item.files.map (fun f =>
                    ({ head := f.1, tail := f.2.1, name := f.2.2 } : FileMsg))
                else []
              let r ← addTransfersChunkItems dbFiles qfail (q + 1) rest
              .ok (batch :: r.1, msgs ++ r.2.1, r.2.2)

/-- Result of `Manager._add_transfers`: the batch table after the run, the
file messages enqueued on the processed queue, whether an uncaught
exception crashed the run, and the transfer messages still in the queue at
the crash. -/
structure ATRes where
  batches : List BatchRec
  out : List FileMsg
  crashed : Bool
  leftover : List TransferMsg
deriving Repr, DecidableEq

/-- The chunk loop of `Manager._add_transfers`: per chunk, build the batch
rows; when there are any, `add_all` and commit them (`cfail` per commit
attempt).  Only once the commit succeeded are the collected file messages
enqueued.  A `_make_batch` `TypeError` aborts the whole run; chunks already
committed keep their effects. -/
def addTransfersLoop (dbFiles : List FileRow) (qfail cfail : Nat → Bool) :
    List BatchRec → Nat → Nat → List (List TransferMsg) → ATRes
  | batchesDb, _, _, [] =>
      { batches := batchesDb, out := [], crashed := false, leftover := [] }
  | batchesDb, q, ci, chunk :: rest =>
      match addTransfersChunkItems dbFiles qfail q chunk with
      | .error _ =>
          { batches := batchesDb, out := [], crashed := true,
            leftover := rest.flatten }
      | .ok (bs, ms, q') =>
          if bs.isEmpty then
            addTransfersLoop dbFiles qfail cfail batchesDb q' ci rest
          else if cfail ci then
            addTransfersLoop dbFiles qfail cfail batchesDb q' (ci + 1) rest
          else
            let r := addTransfersLoop dbFiles qfail cfail (batchesDb ++ bs)
              q' (ci + 1) rest
            { r with out := ms ++ r.out }

/-- `Manager._add_transfers`: drain the transfers queue in chunks of 10. -/
def addTransfers (dbFiles : List FileRow) (qfail cfail : Nat → Bool)
    (batchesDb : List BatchRec) (inp : List TransferMsg) : ATRes :=
  addTransfersLoop dbFiles qfail cfail batchesDb 0 0 (chunksOf 10 inp)

/-- Set `held_on` of the row at index `i`. -/
def setHeld (ts : ℚ) : Nat → List FileRow → List FileRow
  | _, [] => []
  | 0, r :: rest => { r with held_on := some ts } :: rest
  | n + 1, r :: rest => r :: setHeld ts n rest

/-- The per-item state of one chunk of `Manager._update_files`: the
current (uncommitted) table contents, whether any row was located
(`records` non-empty in the source), and the query counter. -/
structure UfSt where
  cur : List FileRow
  touched : Bool := false
  q : Nat := 0
deriving Repr, DecidableEq

/-- The row index returned by `query(File).filter(relpath == tail,
filename == name).first()`: the first matching row in table order (the
query carries no `order_by`). -/
def firstMatchIdx (tail name : String) : List FileRow → Option Nat
  | [] => none
  | r :: rest =>
      if r.relpath == tail && r.filename == name then some 0
      else (firstMatchIdx tail name rest).map (· + 1)

/-- One iteration of the item loop of `Manager._update_files`: the query
`session.query(File).filter(relpath == tail, filename == name).first()`
locates the first matching row in table order; its `held_on` is set to the
item's timestamp.  A query failure rolls the session back, reverting the
uncommitted `held_on` mutations of this chunk. -/
def updateFilesItem (qfail : Nat → Bool) (committed : List FileRow)
    (st : UfSt) (item : FileMsg) : UfSt :=
  if qfail st.q then { st with cur := committed, q := st.q + 1 }
  else
    match firstMatchIdx item.tail item.name st.cur with
    | some i =>
        { st with cur := setHeld (item.timestamp.getD 0) i st.cur,
                  touched := true, q := st.q + 1 }
    | none => { st with q := st.q + 1 }

/-- The chunk loop of `Manager._update_files`: apply the items, then — when
any row was located — commit (`cfail` per attempt); on commit failure the
chunk's mutations are rolled back. -/
def updateFilesLoop (qfail cfail : Nat → Bool) :
    List FileRow → Nat → Nat → List (List FileMsg) → List FileRow
  | committed, _, _, [] => committed
  | committed, q, ci, chunk :: rest =>
      let st := chunk.foldl (updateFilesItem qfail committed)
        { cur := committed, q := q }
      if st.touched then
        if cfail ci then updateFilesLoop qfail cfail committed st.q (ci + 1) rest
        else updateFilesLoop qfail cfail st.cur st.q (ci + 1) rest
      else updateFilesLoop qfail cfail committed st.q ci rest

/-- `Manager._update_files`: drain the completed queue in chunks of 10. -/
def updateFiles (qfail cfail : Nat → Bool) (db : List FileRow)
    (inp : List FileMsg) : List FileRow :=
  updateFilesLoop qfail cfail db 0 0 (chunksOf 10 inp)

/-- `Finder.run` (local.py lines 64-83): `os.walk` over the buffer yields
directories (given as paths relative to the root, `""` for the root
itself) with their file name listings; each file is stat'ed (`statF` maps
the joined path to `(st_size, st_mtime)`, or `none` when the file vanished,
in which case it is skipped with a log message); every surviving file is
emitted as a `FileMsg` — the signature `Finder.__init__(self, config,
queue)` carries no exclude list and `run` applies no filtering of any
kind. -/
def finderRun (root : String) (walk : List (String × List String))
    (statF : String → Option (Nat × ℚ)) : List FileMsg :=
  (walk.map (fun e => e.2.filterMap (fun nm =>
    match statF (pathJoin (pathJoin root e.1) nm) with
    | some st => some ({ head := root, tail := e.1, name := nm,
                         size := some st.1, timestamp := some st.2 } : FileMsg)
    | none => none))).flatten

/-- The dataclass fields of `defaults.Defaults`: `@dataclass` collects only
*annotated* class attributes, and `Defaults` annotates none (`chunk_size =
10` etc. are plain class attributes), so the field list is empty and
`asdict(Defaults())` is the empty dictionary. -/
def defaultsAsdict : List (String × String) := []

/-- The keyword parameters accepted by `Finder.__init__(self, config,
queue)`. -/
def finderInitParams : List String := ["config", "queue"]

/-- `settings[key]` after `settings = asdict(Defaults());
settings.update(config)`: look the key up in the `general` section,
falling back to the (empty) defaults; absence raises `KeyError`. -/
def settingsGet (general : Option (List (String × String))) (key : String) :
    Except PyErr String :=
  match (match general with
         | some g => (g.lookup key).orElse (fun _ => defaultsAsdict.lookup key)
         | none => defaultsAsdict.lookup key) with
  | some v => .ok v
  | none => .error (.keyError key)

/-- The settings-dependent part of `Manager.__init__` (manager.py lines
72-91): read `settings["num_threads"]` and `settings["pause"]`, then
construct the Finder as `Finder(handoff, self.discovered,
exclude_list=settings["exclude_list"])`.  Binding that call against
`Finder.__init__(self, config, queue)` raises `TypeError` for the
unexpected keyword argument. -/
def managerInitFinder (general : Option (List (String × String))) :
    Except PyErr Unit := do
  let _ ← settingsGet general "num_threads"
  let _ ← settingsGet general "pause"
  let _ ← settingsGet general "exclude_list"
  if ["exclude_list"].all (fun kw => finderInitParams.contains kw) then
    .ok ()
  else
    .error (.typeError
      "__init__() got an unexpected keyword argument 'exclude_list'")

/-- `managerInitFinder` came back without raising. -/
def managerInitFinderOk (general : Option (List (String × String))) : Bool :=
  match managerInitFinder general with
  | .ok _ => true
  | .error _ => false

/-- The mutable state of one `Manager` run: the two ledger tables, the five
queues, and the contents of the holding area (the messages the Mover
successfully moved there). -/
structure MState where
  files : List FileRow := []
  batches : List BatchRec := []
  pending : List FileMsg := []
  transfers : List TransferMsg := []
  processed : List FileMsg := []
  completed : List FileMsg := []
  holding : List FileMsg := []
deriving Repr, DecidableEq

/-- The nondeterminism of one cycle of `Manager.run`, resolved by oracles:
the files the Finder discovers, the checksum function, the query/commit
failure streams of the three database phases, the command outcomes and
clock readings of the Porter, and the move outcomes and clock of the
Mover. -/
structure CycleEnv where
  discovered : List FileMsg := []
  csum : String → String := fun _ => ""
  afQF : Nat → Bool := fun _ => false
  afCF : Nat → Bool := fun _ => false
  execF : Nat → String → CmdRes :=
    fun _ _ => { status := 0, stdout := "", stderr := "", dur := 1 }
  clockF : Nat → ℚ := fun _ => 0
  atQF : Nat → Bool := fun _ => false
  atCF : Nat → Bool := fun _ => false
  movOk : Nat → Bool := fun _ => true
  movNow : Nat → ℚ := fun _ => 0
  ufQF : Nat → Bool := fun _ => false
  ufCF : Nat → Bool := fun _ => false

/-- One iteration of the main loop of `Manager.run` (manager.py lines
109-186), serial as in the source: Finder fills the discovered queue (an
empty scan sleeps and restarts the loop); `_add_files` reconciles it into
the pending queue; the Porter threads drain the pending queue into the
transfers queue; `_add_transfers` records them and fills the processed
queue (an escaping `TypeError` kills the manager: the `crashed` flag
freezes the run); the Cleaner's Mover moves the processed files into the
holding area and stamps the completed queue; `_update_files` writes the
hold times.  The Eraser and Wiper touch no modelled state. -/
def managerCycle (P : PorterState) (holdingRoot : String) (env : CycleEnv)
    (s : MState) : MState × Bool :=
  if env.discovered.isEmpty then (s, false)
  else
    let af := addFiles env.csum env.afQF env.afCF s.files env.discovered
    let trans := porterRun P env.execF env.clockF (s.pending ++ af.2)
    let at_ := addTransfers af.1 env.atQF env.atCF s.batches
      (s.transfers ++ trans)
    if at_.crashed then
      ({ s with files := af.1, batches := at_.batches, pending := [],
                transfers := at_.leftover,
                processed := s.processed ++ at_.out }, true)
    else
      let moved := moverRun holdingRoot env.movOk env.movNow
        (s.processed ++ at_.out)
      let files' := updateFiles env.ufQF env.ufCF af.1 (s.completed ++ moved)
      ({ files := files', batches := at_.batches, pending := [],
         transfers := [], processed := [], completed := [],
         holding := s.holding ++ moved }, false)

/-- Iterate `Manager.run` cycles; a crashed cycle freezes the state (the
process died with an uncaught exception). -/
def managerRun (P : PorterState) (holdingRoot : String) :
    List CycleEnv → MState → MState
  | [], s => s
  | e :: es, s =>
      let r := managerCycle P holdingRoot e s
      if r.2 then r.1 else managerRun P holdingRoot es r.1

/-- C10: for every method string outside {blake2, md5, sha1}, `get_checksum`
does not raise — `methods.get(method, hashlib.blake2b)` makes the dispatch
total — and its result on given file bytes equals
`get_checksum(path, 'blake2')` on the same bytes. -/
theorem C10_get_checksum_fallback (data : List Nat) (method : String)
    (block_size : Nat)
    (h : method ∉ (["blake2", "md5", "sha1"] : List String)) :
    methodsGet method = HashAlg.blake2b ∧
      get_checksum data method block_size =
        get_checksum data "blake2" block_size := by
  simp only [List.mem_cons, List.not_mem_nil, or_false, not_or] at h
  have hm : methodsGet method = HashAlg.blake2b := by
    simp [methodsGet, h.1, h.2.1, h.2.2]
  refine ⟨hm, ?_⟩
  have hb : methodsGet "blake2" = HashAlg.blake2b := by simp [methodsGet]
  simp [get_checksum, hm, hb]

theorem C10_witness :
    ("sha256" : String) ∉ (["blake2", "md5", "sha1"] : List String) ∧
      (methodsGet "sha256" = HashAlg.blake2b ∧
        get_checksum [7, 7, 7] "sha256" 2 = get_checksum [7, 7, 7] "blake2" 2) :=
  ⟨by decide, C10_get_checksum_fallback [7, 7, 7] "sha256" 2 (by decide)⟩

/-- C9: `Eraser.run` never removes the buffer root itself: every removal
candidate is a strict subdirectory of the root (the collection loop only
ever appends `os.path.join(topdir, name)` for subdirectory entries), so
even an empty, long-expired root survives every run. -/
theorem C9_eraser_preserves_root (root : List String) (tree : FsDir)
    (now exp_time : ℚ) (mtime : List String → ℚ)
    (rmdirFails : List String → Bool) :
    root ∉ eraserCandidates root tree ∧
      root ∉ eraserRemoved root tree now exp_time mtime rmdirFails := by
  have hc : root ∉ eraserCandidates root tree := by
    intro h
    exact absurd rfl (Nat.ne_of_lt (eraserCandidates_longer root tree root h))
  exact ⟨hc, fun h => hc (List.mem_of_mem_filter h)⟩

/-- C8: for every message processed by `Mover.run`, a failed move drops the
message from the output (and, the model being functional on values read
from the input queue, nothing of it is rewritten), while a successful move
enqueues it exactly once with exactly `head` (set to the holding root) and
`timestamp` (set to the move-time clock) rewritten; `tail`, `name` and
`size` survive unchanged. -/
theorem C8_mover_frame (root : String) (okF : Nat → Bool) (nowF : Nat → ℚ)
    (inp : List FileMsg) :
    moverRun root okF nowF inp =
      ((inp.enumFrom 0).filter (fun p => okF p.1)).map
        (fun p => { p.2 with head := root, timestamp := some (nowF p.1) }) ∧
      ∀ m ∈ moverRun root okF nowF inp,
        ∃ msg ∈ inp, m.tail = msg.tail ∧ m.name = msg.name ∧
          m.size = msg.size ∧ m.head = root :=
  ⟨moverRunFrom_eq root okF nowF 0 inp, moverRun_mem root okF nowF inp⟩

/-- C4 counterexample: when `subprocess.run` raises an exception other than
`CalledProcessError` or `TimeoutExpired` — e.g. `FileNotFoundError` for a
missing executable — `execute` does not return any wrapped status tuple:
the exception propagates to the caller. -/
theorem C4_counterexample :
    execute (.raised "FileNotFoundError") 1 = .error "FileNotFoundError" ∧
      ¬∃ r : Int × String × String × ℚ,
        execute (.raised "FileNotFoundError") 1 = .ok r := by
  refine ⟨rfl, ?_⟩
  rintro ⟨r, hr⟩
  simp [execute] at hr

/-- C4 amended: `execute` maps a zero child exit to status 0, a non-zero
exit to `remoteIOError` (errno EREMOTEIO), and a timeout to `ETIME`, returning
status, stdout, stderr and the measured duration; but exceptions other than
`CalledProcessError` and `TimeoutExpired` are not caught and propagate to
the caller rather than being wrapped. -/
theorem C4_execute_mapping (out err : String) (dur : ℚ) :
    execute (.exited 0 out err) dur = .ok (0, out, err, dur) ∧
      (∀ code : Int, code ≠ 0 →
        execute (.exited code out err) dur = .ok (remoteIOError, out, err, dur)) ∧
      execute (.timedOut out err) dur = .ok (ETIME, out, err, dur) ∧
      (∀ exc : String, execute (.raised exc) dur = .error exc) := by
  refine ⟨by simp [execute], fun code hc => by simp [execute, hc], rfl,
    fun exc => rfl⟩

theorem C4_witness :
    (execute (.exited 0 "o" "e") 3 = .ok (0, "o", "e", 3) ∧
      (∀ code : Int, code ≠ 0 →
        execute (.exited code "o" "e") 3 = .ok (remoteIOError, "o", "e", 3)) ∧
      execute (.timedOut "o" "e") 3 = .ok (ETIME, "o", "e", 3) ∧
      (∀ exc : String, execute (.raised exc) 3 = .error exc)) ∧
      execute (.exited 2 "o" "e") 3 = .ok (remoteIOError, "o", "e", 3) :=
  ⟨C4_execute_mapping "o" "e" 3,
    (C4_execute_mapping "o" "e" 3).2.1 2 (by decide)⟩

/-- A valid endpoint configuration whose `transfer` template contains
neither `{batch}` nor `{file}` — every placeholder it does use is
defined. -/
def cfgNoModePlaceholder : EndpointConfig where
  scalars := [("user", "u"), ("host", "h"), ("buffer", "/buf")]
  commands := some [("remote", "ssh {user}@{host} {command}"),
                    ("transfer", "cp x {dest}")]

/-- C2 counterexample: the transfer template `cp x {dest}` contains neither
the `{batch}` nor the `{file}` placeholder, yet `Porter.__init__` succeeds:
no check for the presence (or exclusivity) of those placeholders exists in
the constructor. -/
theorem C2_counterexample :
    "batch" ∉ placeholdersOf "cp x {dest}" ∧
      "file" ∉ placeholdersOf "cp x {dest}" ∧
      porterInitOk cfgNoModePlaceholder 1 = true := by
  refine ⟨?_, ?_, ?_⟩ <;> decide

theorem lookup_isSome_iff (cmds : List (String × String)) (a : String) :
    (∃ v, cmds.lookup a = some v) ↔ ∃ p ∈ cmds, p.1 = a := by
  induction cmds with
  | nil => simp [List.lookup]
  | cons kv rest ih =>
      rw [List.lookup]
      by_cases h : a = kv.1
      · subst h
        simp
      · have hne : (a == kv.1) = false := beq_false_of_ne h
        simp only [hne]
        rw [ih]
        constructor
        · rintro ⟨p, hp, rfl⟩
          exact ⟨p, List.mem_cons_of_mem _ hp, rfl⟩
        · rintro ⟨p, hp, rfl⟩
          rcases List.mem_cons.mp hp with rfl | hp'
          · exact absurd rfl (by exact fun hh => h hh.symm)
          · exact ⟨p, hp', rfl⟩

/-- C2 amended: `Porter.__init__` raises `ValueError` whenever some command
template references a placeholder outside the configured parameters plus
the computed keywords (and also when a required key is missing); but it
performs no validation of the `{batch}` / `{file}` placeholders:
construction succeeds exactly when the required keys are present, every
placeholder of every command template is defined, and a `transfer` command
exists. -/
theorem C2_porterInit_characterization (cfg : EndpointConfig)
    (chunk_size : Nat) :
    (porterInitOk cfg chunk_size = true ↔
      (∀ k ∈ porterRequired, k ∈ cfg.keys) ∧
      ∃ cmds, cfg.commands = some cmds ∧
        (∀ c ∈ cmds, undefinedPlaceholders cfg.scalars c.2 = []) ∧
        ∃ p ∈ cmds, p.1 = "transfer") ∧
    (∀ cmds c, cfg.commands = some cmds → c ∈ cmds →
      undefinedPlaceholders cfg.scalars c.2 ≠ [] →
      ∃ m, porterInit cfg chunk_size = .error (.valueError m)) := by
  constructor
  · unfold porterInitOk porterInit
    by_cases hm : ∀ k ∈ porterRequired, k ∈ cfg.keys
    · have hm' : ¬∃ x ∈ porterRequired, x ∉ cfg.keys := by
        push_neg
        exact hm
      cases hcmds : cfg.commands with
      | none =>
          apply iff_of_false
          · simp [hcmds, hm']
          · rintro ⟨_, cmds', hcmds', _⟩
            simp [hcmds] at hcmds'
      | some cmds =>
          cases hf : cmds.find? (fun kv =>
              !(undefinedPlaceholders cfg.scalars kv.2).isEmpty) with
          | some kv =>
              have hkv : kv ∈ cmds := List.mem_of_find?_eq_some hf
              have hkv2 : undefinedPlaceholders cfg.scalars kv.2 ≠ [] := by
                have := List.find?_some hf
                simp only [Bool.not_eq_true'] at this
                intro hnil
                rw [hnil] at this
                simp at this
              apply iff_of_false
              · simp [hcmds, hm', hf]
              · rintro ⟨_, cmds', hcmds', hall, _⟩
                cases Option.some.inj hcmds'
                exact hkv2 (hall kv hkv)
          | none =>
              cases ht : cmds.lookup "transfer" with
              | none =>
                  apply iff_of_false
                  · simp [hcmds, hm', hf, ht]
                  · rintro ⟨_, cmds', hcmds', _, p, hp, hp1⟩
                    cases Option.some.inj hcmds'
                    rcases (lookup_isSome_iff cmds "transfer").mpr
                      ⟨p, hp, hp1⟩ with ⟨v, hv⟩
                    rw [ht] at hv
                    exact absurd hv (by simp)
              | some t =>
                  apply iff_of_true
                  · simp [hcmds, hm', hf, ht]
                  · refine ⟨hm, cmds, rfl, ?_, ?_⟩
                    · intro c hc
                      have := List.find?_eq_none.mp hf c hc
                      simp only [Bool.not_eq_true', List.isEmpty_iff] at this
                      simpa using this
                    · exact (lookup_isSome_iff cmds "transfer").mp ⟨t, ht⟩
    · have hm' : ∃ x ∈ porterRequired, x ∉ cfg.keys := by
        push_neg at hm
        exact hm
      apply iff_of_false
      · simp [hm']
      · rintro ⟨hA, _⟩
        rcases hm' with ⟨x, hx, hnx⟩
        exact hnx (hA x hx)
  · intro cmds c hcmds hc hundef
    unfold porterInit
    by_cases hm' : ∃ x ∈ porterRequired, x ∉ cfg.keys
    · have h : porterInit cfg chunk_size = .error (.valueError
          ("Invalid configuration: " ++ ", ".intercalate
            (porterRequired.filter (fun k => !cfg.keys.contains k)) ++
            " not provided.")) := by
        unfold porterInit
        simp [hm']
      exact ⟨_, h⟩
    · have hf : cmds.find? (fun kv =>
          !(undefinedPlaceholders cfg.scalars kv.2).isEmpty) ≠ none := by
        intro hnone
        have := List.find?_eq_none.mp hnone c hc
        simp only [Bool.not_eq_true', List.isEmpty_iff] at this
        exact hundef (by simpa using this)
      cases hfv : cmds.find? (fun kv =>
          !(undefinedPlaceholders cfg.scalars kv.2).isEmpty) with
      | none => exact absurd hfv hf
      | some kv =>
          have h : porterInit cfg chunk_size = .error (.valueError
              ("parameters " ++ ", ".intercalate
                (undefinedPlaceholders cfg.scalars kv.2) ++
                " are used, but not defined in '" ++ kv.2 ++ "'")) := by
            unfold porterInit
            simp [hcmds, hm', hfv]
          exact ⟨_, h⟩

/-- A configuration whose remote template uses an undefined placeholder. -/
def cfgUndefinedPlaceholder : EndpointConfig where
  scalars := [("user", "u"), ("host", "h"), ("buffer", "/buf")]
  commands := some [("remote", "ssh {user}@{host} {command} {oops}"),
                    ("transfer", "scp {batch} {user}@{host}:{dest}")]

theorem C2_witness :
    (porterInitOk cfgNoModePlaceholder 1 = true ∧
      (∀ k ∈ porterRequired, k ∈ cfgNoModePlaceholder.keys)) ∧
      ∃ m, porterInit cfgUndefinedPlaceholder 1 = .error (.valueError m) := by
  constructor
  · constructor
    · decide
    · exact ((C2_porterInit_characterization cfgNoModePlaceholder 1).1.mp
        (by decide)).1
  · exact (C2_porterInit_characterization cfgUndefinedPlaceholder 1).2
      [("remote", "ssh {user}@{host} {command} {oops}"),
       ("transfer", "scp {batch} {user}@{host}:{dest}")]
      ("remote", "ssh {user}@{host} {command} {oops}")
      rfl (by decide) (by decide)

/-- A tracked ledger row matching `itemTracked` under the constant
checksum oracle. -/
def rowTracked : FileRow where
  relpath := "a"
  filename := "t.dat"
  checksum := "X"
  size_bytes := 1
  created_on := 0

/-- An item whose `(tail, name, checksum)` is already in the ledger. -/
def itemTracked : FileMsg :=
  { head := "/h", tail := "a", name := "t.dat", size := some 1,
    timestamp := some 1 }

/-- An item not yet in the ledger. -/
def itemUntracked : FileMsg :=
  { head := "/h", tail := "a", name := "u.dat", size := some 2,
    timestamp := some 2 }

/-- C6 counterexample: a chunk holding one previously tracked item and one
untracked item, whose commit fails (`cfail` constantly true): the chunk is
*not* discarded — the previously tracked item is still enqueued onto the
pending queue (only the untracked item is dropped), while the table indeed
stays unchanged. -/
theorem C6_counterexample :
    (([itemTracked, itemUntracked].foldl
        (addFilesItem (fun _ => "X") (fun _ => false) [rowTracked])
        { q := 0 }).untracked = [itemUntracked]) ∧
      addFiles (fun _ => "X") (fun _ => false) (fun _ => true) [rowTracked]
          [itemTracked, itemUntracked] =
        ([rowTracked], [itemTracked]) := by
  constructor <;> decide

theorem addFilesItem_count (csum : String → String) (qfail : Nat → Bool)
    (db : List FileRow) (st : AfSt) (item x : FileMsg) :
    ((addFilesItem csum qfail db st item).tracked ++
        (addFilesItem csum qfail db st item).untracked).count x ≤
      (st.tracked ++ st.untracked).count x + (if item = x then 1 else 0) := by
  rw [addFilesItem]
  by_cases h1 : qfail st.q
  · simp [h1, List.count_append]
  · simp only [h1, Bool.false_eq_true, if_false]
    by_cases h2 : (db ++ st.pend).any (fun r =>
        r.relpath == item.tail && r.filename == item.name &&
          r.checksum == csum (pathJoin (pathJoin item.head item.tail) item.name))
    · simp only [h2, if_true]
      simp only [List.count_append, List.count_concat]
      by_cases h3 : item = x
      · subst h3
        simp only [List.count_concat, beq_self_eq_true, if_pos rfl]
        simp [List.count_append]
        omega
      · simp [List.count_cons, h3, Ne.symm h3]
    · simp only [h2, Bool.false_eq_true, if_false]
      simp only [List.count_append, List.count_concat]
      by_cases h3 : item = x
      · subst h3
        simp only [List.count_concat, beq_self_eq_true, if_pos rfl]
        simp [List.count_append]
        omega
      · simp [List.count_cons, h3, Ne.symm h3]

theorem addFilesFold_count (csum : String → String) (qfail : Nat → Bool)
    (db : List FileRow) :
    ∀ (chunk : List FileMsg) (st : AfSt) (x : FileMsg),
      ((chunk.foldl (addFilesItem csum qfail db) st).tracked ++
          (chunk.foldl (addFilesItem csum qfail db) st).untracked).count x ≤
        (st.tracked ++ st.untracked).count x + chunk.count x := by
  intro chunk
  induction chunk with
  | nil => simp
  | cons item rest ih =>
      intro st x
      rw [List.foldl_cons]
      calc ((rest.foldl (addFilesItem csum qfail db)
              (addFilesItem csum qfail db st item)).tracked ++
            (rest.foldl (addFilesItem csum qfail db)
              (addFilesItem csum qfail db st item)).untracked).count x
          ≤ ((addFilesItem csum qfail db st item).tracked ++
              (addFilesItem csum qfail db st item).untracked).count x +
              rest.count x := ih _ x
        _ ≤ ((st.tracked ++ st.untracked).count x +
              (if item = x then 1 else 0)) + rest.count x :=
            Nat.add_le_add_right (addFilesItem_count csum qfail db st item x) _
        _ = (st.tracked ++ st.untracked).count x + (item :: rest).count x := by
            by_cases h3 : item = x
            · have hbe : (item == x) = true := by
                simp [h3]
              simp only [List.count_cons, hbe, if_true, if_pos h3]
              omega
            · have hbe : (item == x) = false := by
                simp [h3]
              simp only [List.count_cons, hbe, Bool.false_eq_true, if_false,
                if_neg h3]
              omega

/-- C6 amended: the chunk commit of `Manager._add_files` is atomic — rows
are added exactly when the commit succeeds — and on commit failure only the
*newly inserted* (untracked) items are discarded for the cycle: the
previously tracked items of the chunk are still enqueued; on success every
classified item is enqueued; no classified item is ever enqueued more often
than it occurred in the chunk. -/
theorem C6_addFiles_chunk (csum : String → String) (qfail cfail : Nat → Bool)
    (db : List FileRow) (q ci : Nat) (chunk : List FileMsg) :
    (((chunk.foldl (addFilesItem csum qfail db) { q := q }).untracked ≠ [])
      → cfail ci = true →
      addFilesLoop csum qfail cfail db q ci [chunk] =
        (db, (chunk.foldl (addFilesItem csum qfail db) { q := q }).tracked)) ∧
    (((chunk.foldl (addFilesItem csum qfail db) { q := q }).untracked ≠ [])
      → cfail ci = false →
      addFilesLoop csum qfail cfail db q ci [chunk] =
        (db ++ (chunk.foldl (addFilesItem csum qfail db) { q := q }).pend,
         (chunk.foldl (addFilesItem csum qfail db) { q := q }).tracked ++
           (chunk.foldl (addFilesItem csum qfail db) { q := q }).untracked)) ∧
    (((chunk.foldl (addFilesItem csum qfail db) { q := q }).untracked = [])
      → addFilesLoop csum qfail cfail db q ci [chunk] =
        (db, (chunk.foldl (addFilesItem csum qfail db) { q := q }).tracked)) ∧
    (∀ x : FileMsg,
      ((chunk.foldl (addFilesItem csum qfail db) { q := q }).tracked ++
        (chunk.foldl (addFilesItem csum qfail db) { q := q }).untracked).count x
        ≤ chunk.count x) := by
  refine ⟨?_, ?_, ?_, ?_⟩
  · intro hu hc
    rw [addFilesLoop]
    simp only [List.isEmpty_iff, hu, if_false, hc, if_true]
    simp [addFilesLoop]
  · intro hu hc
    rw [addFilesLoop]
    simp only [List.isEmpty_iff, hu, if_false, hc, Bool.false_eq_true, if_false]
    simp [addFilesLoop]
  · intro hu
    rw [addFilesLoop]
    simp only [List.isEmpty_iff, hu, if_true]
    simp [addFilesLoop]
  · intro x
    have := addFilesFold_count csum qfail db chunk { q := q } x
    simpa using this

theorem firstMatchIdx_some (tail name : String) :
    ∀ (db : List FileRow) (i : Nat), firstMatchIdx tail name db = some i →
      ∃ r, db.get? i = some r ∧ r.relpath = tail ∧ r.filename = name ∧
        ∀ j r', j < i → db.get? j = some r' →
          ¬(r'.relpath = tail ∧ r'.filename = name) := by
  intro db
  induction db with
  | nil => intro i h; simp [firstMatchIdx] at h
  | cons r rest ih =>
      intro i h
      rw [firstMatchIdx] at h
      by_cases hr : (r.relpath == tail && r.filename == name) = true
      · rw [if_pos hr] at h
        cases Option.some.inj h
        simp only [beq_iff_eq, Bool.and_eq_true] at hr
        exact ⟨r, rfl, hr.1, hr.2,
          fun j r' hj _ => absurd hj (Nat.not_lt_zero j)⟩
      · rw [if_neg hr] at h
        rcases Option.map_eq_some'.mp h with ⟨i', hi', rfl⟩
        rcases ih i' hi' with ⟨r', hr', h1, h2, h3⟩
        refine ⟨r', by simpa using hr', h1, h2, ?_⟩
        intro j r'' hj hg
        cases j with
        | zero =>
            simp only [List.get?_cons_zero] at hg
            cases Option.some.inj hg
            intro ⟨ha, hb⟩
            exact hr (by simp [ha, hb])
        | succ j =>
            simp only [List.get?_cons_succ] at hg
            exact h3 j r'' (by omega) hg

theorem firstMatchIdx_none (tail name : String) :
    ∀ (db : List FileRow), firstMatchIdx tail name db = none →
      ∀ r ∈ db, ¬(r.relpath = tail ∧ r.filename = name) := by
  intro db
  induction db with
  | nil => intro _ r hr; simp at hr
  | cons r rest ih =>
      intro h r' hr'
      rw [firstMatchIdx] at h
      by_cases hr : (r.relpath == tail && r.filename == name) = true
      · rw [if_pos hr] at h; exact absurd h (by simp)
      · rw [if_neg hr] at h
        rcases List.mem_cons.mp hr' with rfl | hmem
        · intro ⟨ha, hb⟩
          exact hr (by simp [ha, hb])
        · exact ih (by simpa using h) r' hmem

theorem setHeld_get?_ne (ts : ℚ) :
    ∀ (i j : Nat) (db : List FileRow), j ≠ i →
      (setHeld ts i db).get? j = db.get? j := by
  intro i j db
  induction db generalizing i j with
  | nil => intro _; cases i <;> rfl
  | cons r rest ih =>
      intro hne
      cases i with
      | zero =>
          cases j with
          | zero => exact absurd rfl hne
          | succ j => rfl
      | succ i =>
          cases j with
          | zero => rfl
          | succ j =>
              rw [setHeld]
              simp only [List.get?_cons_succ]
              exact ih i j (by omega)

theorem setHeld_get?_eq (ts : ℚ) :
    ∀ (i : Nat) (db : List FileRow) (r : FileRow), db.get? i = some r →
      (setHeld ts i db).get? i = some { r with held_on := some ts } := by
  intro i db
  induction db generalizing i with
  | nil => intro r h; simp at h
  | cons r0 rest ih =>
      intro r h
      cases i with
      | zero =>
          simp only [List.get?_cons_zero] at h
          cases Option.some.inj h
          rfl
      | succ i =>
          simp only [List.get?_cons_succ] at h
          rw [setHeld]
          simp only [List.get?_cons_succ]
          exact ih i r h

/-- C7 amended: for a `FileItem` drained from the completed queue (with no
query or commit failure), `Manager._update_files` locates the *first* row
matching `(tail, name)` in table order — the earliest created, not the most
recently created — and sets its `held_on` to the item's timestamp; every
other row, in particular every row of a different `(tail, name)`, is left
unchanged, and an item with no matching row causes no database change. -/
theorem C7_updateFiles_first_match (db : List FileRow) (item : FileMsg)
    (qf cf : Nat → Bool) (hq : qf 0 = false) (hc : cf 0 = false) :
    (firstMatchIdx item.tail item.name db = none →
      updateFiles qf cf db [item] = db) ∧
    (∀ i, firstMatchIdx item.tail item.name db = some i →
      updateFiles qf cf db [item] = setHeld (item.timestamp.getD 0) i db ∧
      (∃ r, db.get? i = some r ∧ r.relpath = item.tail ∧
        r.filename = item.name ∧
        (setHeld (item.timestamp.getD 0) i db).get? i =
          some { r with held_on := some (item.timestamp.getD 0) }) ∧
      (∀ j, j ≠ i → (setHeld (item.timestamp.getD 0) i db).get? j =
        db.get? j) ∧
      (∀ j r', j < i → db.get? j = some r' →
        ¬(r'.relpath = item.tail ∧ r'.filename = item.name))) := by
  have hchunks : chunksOf 10 [item] = [[item]] := rfl
  constructor
  · intro hnone
    rw [updateFiles, hchunks, updateFilesLoop]
    simp only [List.foldl_cons, List.foldl_nil, updateFilesItem, hq,
      Bool.false_eq_true, if_false, hnone]
    rfl
  · intro i hi
    have hupd : updateFiles qf cf db [item] =
        setHeld (item.timestamp.getD 0) i db := by
      rw [updateFiles, hchunks, updateFilesLoop]
      simp only [List.foldl_cons, List.foldl_nil, updateFilesItem, hq,
        Bool.false_eq_true, if_false, hi]
      simp only [if_true, hc, updateFilesLoop]
      simp
    rcases firstMatchIdx_some item.tail item.name db i hi with
      ⟨r, hr, h1, h2, h3⟩
    exact ⟨hupd,
      ⟨r, hr, h1, h2, setHeld_get?_eq _ i db r hr⟩,
      fun j hj => setHeld_get?_ne _ i j db hj,
      h3⟩

/-- Two rows for the same `(tail, name)` — reused file name, new content —
the second created later than the first. -/
def rowOld7 : FileRow where
  relpath := "a"
  filename := "x.dat"
  checksum := "c1"
  size_bytes := 1
  created_on := 1

/-- See `rowOld7`. -/
def rowNew7 : FileRow where
  relpath := "a"
  filename := "x.dat"
  checksum := "c2"
  size_bytes := 2
  created_on := 2

/-- A completed item for `(a, x.dat)` moved at time 9. -/
def item7 : FileMsg :=
  { head := "/hold", tail := "a", name := "x.dat", timestamp := some 9 }

/-- C7 counterexample: with two rows matching `(tail, name)`,
`_update_files` stamps the *first* row in table order — the one created
earliest — and leaves the most recently created row untouched, contradicting
the claim that the latest row is located. -/
theorem C7_counterexample :
    updateFiles (fun _ => false) (fun _ => false) [rowOld7, rowNew7]
        [item7] =
      [{ rowOld7 with held_on := some 9 }, rowNew7] ∧
      rowOld7.created_on < rowNew7.created_on ∧ rowNew7.held_on = none := by
  refine ⟨by decide, by decide, by decide⟩

theorem C6_witness :
    addFilesLoop (fun _ => "X") (fun _ => false) (fun _ => true) [rowTracked]
        0 0 [[itemTracked, itemUntracked]] =
      ([rowTracked],
        ([itemTracked, itemUntracked].foldl
          (addFilesItem (fun _ => "X") (fun _ => false) [rowTracked])
          { q := 0 }).tracked) :=
  (C6_addFiles_chunk (fun _ => "X") (fun _ => false) (fun _ => true)
    [rowTracked] 0 0 [itemTracked, itemUntracked]).1 (by decide) rfl

theorem C7_witness :
    updateFiles (fun _ => false) (fun _ => false) [rowOld7, rowNew7]
        [item7] =
      setHeld 9 0 [rowOld7, rowNew7] :=
  ((C7_updateFiles_first_match [rowOld7, rowNew7] item7
    (fun _ => false) (fun _ => false) rfl rfl).2 0 (by decide)).1

/-- A porter with a staging area distinct from the endpoint buffer, so
phase C runs. -/
def porterC5 : PorterState where
  cmds := [("remote", "ssh {user}@{host} {command}"),
           ("transfer", "scp {source} {user}@{host}:{dest}")]
  params := [("user", "u"), ("host", "h"), ("buffer", "/buf"),
             ("staging", "/stg")]
  batch_mode := true
  chunk_size := 10

/-- Command outcomes: phase A `mkdir` and phase B transfer succeed
(durations 2 s), the phase C `mkdir` (third invocation) fails after 3 s. -/
def execC5 : Nat → String → CmdRes := fun k _ =>
  if k = 2 then { status := 1, stdout := "", stderr := "boom", dur := 3 }
  else { status := 0, stdout := "", stderr := "", dur := 2 }

/-- Two files in the same source directory. -/
def fileC5a : FileMsg :=
  { head := "/h", tail := "a", name := "f1", size := some 100,
    timestamp := some 5 }

/-- See `fileC5a`. -/
def fileC5b : FileMsg :=
  { head := "/h", tail := "a", name := "f2", size := some 50,
    timestamp := some 6 }

/-- C5: when the phase-C ensure-directory command of `Porter.run` fails,
the flushed record carries `post_duration = total` — the raw `timedelta`
object, not `total.total_seconds()` as on every other path (contrast the
`mv` loop's `(total+dur).total_seconds()`); `Manager._make_batch` then
raises `TypeError` on `timedelta(seconds=duration)` for exactly that
record, while the phase A and B durations of the same record are proper
second values. -/
theorem C5_phaseC_mkdir_failure_td :
    (porterRun porterC5 execC5 (fun k => k) [fileC5a, fileC5b]).map
        (fun t => t.post_duration) = [PyDur.td 3] ∧
      (porterRun porterC5 execC5 (fun k => k) [fileC5a, fileC5b]).map
        (fun t => t.pre_duration) = [PyDur.flt 2] ∧
      (porterRun porterC5 execC5 (fun k => k) [fileC5a, fileC5b]).map
        (fun t => t.trans_duration) = [PyDur.flt 2] ∧
      (porterRun porterC5 execC5 (fun k => k) [fileC5a, fileC5b]).map
        makeBatch =
        [Except.error (PyErr.typeError
          "unsupported type for timedelta seconds component: datetime.timedelta")] := by
  refine ⟨?_, rfl, rfl, rfl⟩
  have h1 : (porterRun porterC5 execC5 (fun k => k) [fileC5a, fileC5b]).map
      (fun t => t.post_duration) = [PyDur.td ((0 : ℚ) + 3)] := rfl
  simpa using h1

/-- Every file stats successfully with size 1 and mtime 5. -/
def statC3 : String → Option (Nat × ℚ) := fun _ => some (1, 5)

/-- C3: the `Finder` of this snapshot has no exclude-list support at all:
`Finder.run` emits a `FileMsg` for *every* regular file — here a buffer
holding `a/x.tmp` and `a/y.dat` yields both messages, so a file matching
any configured exclude glob (such as `*.tmp`) is emitted rather than
dropped — and `Manager.__init__` can never construct its Finder: with the
broken `Defaults` dataclass `asdict` is empty, so `settings[...]` raises
`KeyError` unless the `general` section supplies the keys, and when it
does, the call `Finder(handoff, self.discovered, exclude_list=...)` raises
`TypeError` because `Finder.__init__(self, config, queue)` accepts no
`exclude_list` keyword. -/
theorem C3_no_exclude_filtering :
    finderRun "buf" [("a", ["x.tmp", "y.dat"])] statC3 =
      [{ head := "buf", tail := "a", name := "x.tmp", size := some 1,
         timestamp := some 5 },
       { head := "buf", tail := "a", name := "y.dat", size := some 1,
         timestamp := some 5 }] ∧
      ∀ general, managerInitFinderOk general = false := by
  refine ⟨by decide, ?_⟩
  intro general
  rw [managerInitFinderOk]
  cases h1 : managerInitFinder general with
  | error e => rfl
  | ok u =>
      exfalso
      rw [managerInitFinder] at h1
      cases hs1 : settingsGet general "num_threads" with
      | error e => rw [hs1] at h1; simp [Bind.bind, Except.bind] at h1
      | ok v1 =>
          cases hs2 : settingsGet general "pause" with
          | error e => rw [hs1, hs2] at h1; simp [Bind.bind, Except.bind] at h1
          | ok v2 =>
              cases hs3 : settingsGet general "exclude_list" with
              | error e =>
                  rw [hs1, hs2, hs3] at h1
                  simp [Bind.bind, Except.bind] at h1
              | ok v3 =>
                  rw [hs1, hs2, hs3] at h1
                  simp only [Bind.bind, Except.bind] at h1
                  have : (["exclude_list"].all
                      (fun kw => finderInitParams.contains kw)) = false := by
                    decide
                  rw [this] at h1
                  simp at h1

theorem makeBatch_status (msg : TransferMsg) (b : BatchRec)
    (h : makeBatch msg = .ok b) : b.status = msg.status := by
  rw [makeBatch] at h
  cases h1 : convPhase msg.pre_start msg.pre_duration with
  | error e => rw [h1] at h; simp [Bind.bind, Except.bind] at h
  | ok pre =>
      cases h2 : convPhase msg.trans_start msg.trans_duration with
      | error e => rw [h1, h2] at h; simp [Bind.bind, Except.bind] at h
      | ok tr =>
          cases h3 : convPhase msg.post_start msg.post_duration with
          | error e => rw [h1, h2, h3] at h; simp [Bind.bind, Except.bind] at h
          | ok post =>
              rw [h1, h2, h3] at h
              simp only [Bind.bind, Except.bind] at h
              cases Except.ok.inj h
              rfl

/-- The moved file's batch: some committed batch row has status 0 and its
originating transfer's member list contains the `(tail, name)` pair. -/
def hasSrcBatch (batches : List BatchRec) (tail name : String) : Prop :=
  ∃ b ∈ batches, b.status = some 0 ∧
    ∃ f ∈ b.src_files, f.2.1 = tail ∧ f.2.2 = name

theorem hasSrcBatch_mono (batches ext : List BatchRec) (tail name : String)
    (h : hasSrcBatch batches tail name) :
    hasSrcBatch (batches ++ ext) tail name := by
  rcases h with ⟨b, hb, hs, f, hf, h1, h2⟩
  exact ⟨b, List.mem_append_left _ hb, hs, f, hf, h1, h2⟩

theorem hasSrcBatch_cons (b0 : BatchRec) (batches : List BatchRec)
    (tail name : String) (h : hasSrcBatch batches tail name) :
    hasSrcBatch (b0 :: batches) tail name := by
  rcases h with ⟨b, hb, hs, f, hf, h1, h2⟩
  exact ⟨b, List.mem_cons_of_mem _ hb, hs, f, hf, h1, h2⟩

theorem addTransfersChunkItems_sound (dbFiles : List FileRow)
    (qfail : Nat → Bool) :
    ∀ (chunk : List TransferMsg) (q : Nat) (bs : List BatchRec)
      (ms : List FileMsg) (q' : Nat),
      addTransfersChunkItems dbFiles qfail q chunk = .ok (bs, ms, q') →
      ∀ m ∈ ms, hasSrcBatch bs m.tail m.name := by
  intro chunk
  induction chunk with
  | nil =>
      intro q bs ms q' h m hm
      rw [addTransfersChunkItems] at h
      cases Except.ok.inj h
      simp at hm
  | cons item rest ih =>
      intro q bs ms q' h m hm
      rw [addTransfersChunkItems] at h
      by_cases h1 : qfail q
      · rw [if_pos h1] at h
        exact ih (q + 1) bs ms q' h m hm
      · rw [if_neg h1] at h
        simp only [] at h
        by_cases h2 : (dbFiles.filter (fun r => item.files.any
            (fun f => r.relpath == f.2.1 && r.filename == f.2.2))).isEmpty
        · rw [if_pos h2] at h
          exact ih (q + 1) bs ms q' h m hm
        · rw [if_neg h2] at h
          cases h3 : makeBatch item with
          | error e => rw [h3] at h; simp at h
          | ok b =>
              rw [h3] at h
              simp only [Bind.bind, Except.bind] at h
              cases h4 : addTransfersChunkItems dbFiles qfail (q + 1) rest with
              | error e => rw [h4] at h; simp at h
              | ok r =>
                  rw [h4] at h
                  simp only [] at h
                  cases Except.ok.inj h
                  rcases List.mem_append.mp hm with hmm | hmm
                  · by_cases h5 : item.status = some 0
                    · rw [if_pos h5] at hmm
                      rcases List.mem_map.mp hmm with ⟨f, hf, rfl⟩
                      refine ⟨_, List.mem_cons_self _ _, ?_, f, hf, rfl, rfl⟩
                      have : ({ b with
                          files := (dbFiles.filter (fun r => item.files.any
                            (fun f => r.relpath == f.2.1 &&
                              r.filename == f.2.2))).map
                            (fun r => (r.relpath, r.filename)),
                          src_files := item.files } : BatchRec).status =
                          b.status := rfl
                      rw [this, makeBatch_status item b h3, h5]
                    · rw [if_neg h5] at hmm
                      simp at hmm
                  · exact hasSrcBatch_cons _ _ _ _
                      (ih (q + 1) r.1 r.2.1 r.2.2 (by rw [h4]) m hmm)

theorem addTransfersLoop_mono (dbFiles : List FileRow)
    (qfail cfail : Nat → Bool) :
    ∀ (chunks : List (List TransferMsg)) (base : List BatchRec) (q ci : Nat),
      ∃ ext, (addTransfersLoop dbFiles qfail cfail base q ci chunks).batches =
        base ++ ext := by
  intro chunks
  induction chunks with
  | nil => intro base q ci; exact ⟨[], by simp [addTransfersLoop]⟩
  | cons chunk rest ih =>
      intro base q ci
      rw [addTransfersLoop]
      cases hc : addTransfersChunkItems dbFiles qfail q chunk with
      | error e => exact ⟨[], by simp⟩
      | ok r =>
          obtain ⟨bs, ms, q'⟩ := r
          dsimp only
          by_cases hb : bs.isEmpty
          · simp only [hb, if_true]
            exact ih base q' ci
          · simp only [hb, Bool.false_eq_true, if_false]
            by_cases hf : cfail ci
            · simp only [hf, if_true]
              exact ih base q' (ci + 1)
            · simp only [hf, Bool.false_eq_true, if_false]
              rcases ih (base ++ bs) q' (ci + 1) with ⟨ext, hext⟩
              exact ⟨bs ++ ext, by simp [hext]⟩

theorem addTransfersLoop_sound (dbFiles : List FileRow)
    (qfail cfail : Nat → Bool) :
    ∀ (chunks : List (List TransferMsg)) (base : List BatchRec) (q ci : Nat),
      ∀ m ∈ (addTransfersLoop dbFiles qfail cfail base q ci chunks).out,
        hasSrcBatch
          (addTransfersLoop dbFiles qfail cfail base q ci chunks).batches
          m.tail m.name := by
  intro chunks
  induction chunks with
  | nil =>
      intro base q ci m hm
      rw [addTransfersLoop] at hm
      simp at hm
  | cons chunk rest ih =>
      intro base q ci m hm
      rw [addTransfersLoop] at hm ⊢
      cases hc : addTransfersChunkItems dbFiles qfail q chunk with
      | error e =>
          rw [hc] at hm
          dsimp only at hm
          simp at hm
      | ok r =>
          obtain ⟨bs, ms, q'⟩ := r
          rw [hc] at hm
          dsimp only at hm ⊢
          by_cases hb : bs.isEmpty
          · simp only [hb, if_true] at hm ⊢
            exact ih base q' ci m hm
          · simp only [hb, Bool.false_eq_true, if_false] at hm ⊢
            by_cases hf : cfail ci
            · simp only [hf, if_true] at hm ⊢
              exact ih base q' (ci + 1) m hm
            · simp only [hf, Bool.false_eq_true, if_false] at hm ⊢
              simp only [List.mem_append] at hm
              rcases hm with hmm | hmm
              · have hsound := addTransfersChunkItems_sound dbFiles qfail
                  chunk q bs ms q' (by rw [hc]) m hmm
                rcases addTransfersLoop_mono dbFiles qfail cfail rest
                  (base ++ bs) q' (ci + 1) with ⟨ext, hext⟩
                rw [hext]
                rcases hsound with ⟨b, hbm, hs, f, hf', h1, h2⟩
                exact ⟨b, by
                  simp only [List.mem_append]
                  left
                  right
                  exact hbm, hs, f, hf', h1, h2⟩
              · exact ih (base ++ bs) q' (ci + 1) m hmm

/-- The inductive invariant of the manager loop: every message sitting in
the processed or completed queue, and every file moved to the holding area,
stems from a committed batch row with status 0 whose source transfer
contained its `(tail, name)`. -/
def MInv (s : MState) : Prop :=
  (∀ m ∈ s.processed, hasSrcBatch s.batches m.tail m.name) ∧
  (∀ m ∈ s.completed, hasSrcBatch s.batches m.tail m.name) ∧
  (∀ m ∈ s.holding, hasSrcBatch s.batches m.tail m.name)

theorem managerCycle_inv (P : PorterState) (H : String) (env : CycleEnv)
    (s : MState) (hs : MInv s) : MInv (managerCycle P H env s).1 := by
  rw [managerCycle]
  by_cases hd : env.discovered.isEmpty
  · simpa [hd] using hs
  · simp only [hd, Bool.false_eq_true, if_false]
    set af := addFiles env.csum env.afQF env.afCF s.files env.discovered
      with haf
    set at_ := addTransfers af.1 env.atQF env.atCF s.batches
      (s.transfers ++ porterRun P env.execF env.clockF (s.pending ++ af.2))
      with hat
    have hmono : ∃ ext, at_.batches = s.batches ++ ext := by
      rw [hat, addTransfers]
      exact addTransfersLoop_mono _ _ _ _ _ _ _
    have hsound : ∀ m ∈ at_.out, hasSrcBatch at_.batches m.tail m.name := by
      rw [hat, addTransfers]
      exact addTransfersLoop_sound _ _ _ _ _ _ _
    rcases hmono with ⟨ext, hext⟩
    by_cases hcr : at_.crashed
    · simp only [hcr, if_true]
      refine ⟨?_, ?_, ?_⟩
      · intro m hm
        rcases List.mem_append.mp hm with hmm | hmm
        · rw [hext]
          exact hasSrcBatch_mono _ _ _ _ (hs.1 m hmm)
        · exact hsound m hmm
      · intro m hm
        rw [hext]
        exact hasSrcBatch_mono _ _ _ _ (hs.2.1 m hm)
      · intro m hm
        rw [hext]
        exact hasSrcBatch_mono _ _ _ _ (hs.2.2 m hm)
    · simp only [hcr, Bool.false_eq_true, if_false]
      refine ⟨?_, ?_, ?_⟩
      · intro m hm
        simp at hm
      · intro m hm
        simp at hm
      · intro m hm
        rcases List.mem_append.mp hm with hmm | hmm
        · rw [hext]
          exact hasSrcBatch_mono _ _ _ _ (hs.2.2 m hmm)
        · rcases moverRun_mem H env.movOk env.movNow
            (s.processed ++ at_.out) m hmm with ⟨msg, hmsg, ht, hn, _, _⟩
          rw [ht, hn]
          rcases List.mem_append.mp hmsg with hmm' | hmm'
          · rw [hext]
            exact hasSrcBatch_mono _ _ _ _ (hs.1 msg hmm')
          · exact hsound msg hmm'

theorem managerRun_inv (P : PorterState) (H : String) :
    ∀ (envs : List CycleEnv) (s : MState), MInv s →
      MInv (managerRun P H envs s) := by
  intro envs
  induction envs with
  | nil => intro s hs; exact hs
  | cons e es ih =>
      intro s hs
      rw [managerRun]
      by_cases hc : (managerCycle P H e s).2
      · simp only [hc, if_true]
        exact managerCycle_inv P H e s hs
      · simp only [hc, Bool.false_eq_true, if_false]
        exact ih _ (managerCycle_inv P H e s hs)

/-- C1 amended: the Recorder enqueues `FileItems` of successful transfers
onto the processed queue only after the chunk's commit succeeded, and the
Mover consumes the processed queue only after the Recorder step of the
serial cycle, so in every reachable state a file in the holding area stems
from a committed `BatchRow` with status 0 whose originating transfer batch
contained the file; the row's own file association, however, can omit the
file (see the counterexample). -/
theorem C1_holding_from_committed_batch (P : PorterState) (H : String)
    (envs : List CycleEnv) :
    ∀ m ∈ (managerRun P H envs {}).holding,
      ∃ b ∈ (managerRun P H envs {}).batches, b.status = some 0 ∧
        ∃ f ∈ b.src_files, f.2.1 = m.tail ∧ f.2.2 = m.name := by
  intro m hm
  exact (managerRun_inv P H envs {}
    ⟨fun m hm => absurd hm (List.not_mem_nil m),
     fun m hm => absurd hm (List.not_mem_nil m),
     fun m hm => absurd hm (List.not_mem_nil m)⟩).2.2 m hm

/-- The porter of the counterexample run: batch mode, no staging area. -/
def Pc1 : PorterState where
  cmds := [("remote", "ssh {user}@{host} {command}"),
           ("transfer", "scp {source} {user}@{host}:{dest}")]
  params := [("user", "u"), ("host", "h"), ("buffer", "/buf")]
  batch_mode := true
  chunk_size := 10

/-- First discovered item: untracked, inserted into the session — the
insertion is then expunged by the rollback triggered by the next item's
query error. -/
def itemC1 : FileMsg :=
  { head := "/h", tail := "a", name := "c.dat", size := some 1,
    timestamp := some 1 }

/-- Second discovered item: its tracking query raises, rolling back the
session. -/
def itemD1 : FileMsg :=
  { head := "/h", tail := "a", name := "d.dat", size := some 1,
    timestamp := some 2 }

/-- Third discovered item: untracked, inserted and committed. -/
def itemA1 : FileMsg :=
  { head := "/h", tail := "a", name := "a.dat", size := some 1,
    timestamp := some 3 }

/-- One cycle: the second tracking query raises (`afQF 1`); every command
and move succeeds; every commit succeeds. -/
def envC1 : CycleEnv where
  discovered := [itemC1, itemD1, itemA1]
  csum := fun _ => "X"
  afQF := fun q => q == 1

/-- The claim's conclusion, literally: every file in the holding area is
contained — via the batch-file association — in a committed `BatchRow`
with status 0. -/
def holdingContainedInv (s : MState) : Prop :=
  ∀ m ∈ s.holding, ∃ b ∈ s.batches, b.status = some 0 ∧
    (m.tail, m.name) ∈ b.files

/-- C1 counterexample: after one cycle of the concrete scenario, the file
`a/c.dat` sits in the holding area, yet no committed `BatchRow` with
status 0 contains it: its session insertion was expunged by a query-error
rollback inside `_add_files`, the item was still enqueued (as part of the
untracked list committed later), transferred in a batch together with
`a/a.dat`, and the recorded batch's association only captured the row of
`a/a.dat` — the claim's invariant is violated on a reachable state. -/
theorem C1_counterexample :
    ¬ holdingContainedInv (managerRun Pc1 "/hold" [envC1] {}) := by
  unfold holdingContainedInv
  decide

theorem C1_witness :
    ∃ b ∈ (managerRun Pc1 "/hold" [envC1] {}).batches, b.status = some 0 ∧
      ∃ f ∈ b.src_files, f.2.1 = "a" ∧ f.2.2 = "c.dat" :=
  C1_holding_from_committed_batch Pc1 "/hold" [envC1]
    { head := "/hold", tail := "a", name := "c.dat", size := none,
      timestamp := some 0 }
    (by decide)

/-- A processed-queue message for the Mover witness run. -/
def msgC8 : FileMsg :=
  { head := "/h", tail := "a", name := "x", size := some 3,
    timestamp := some 1 }

theorem C8_witness :
    ∃ msg ∈ [msgC8],
      ({ head := "/hold", tail := "a", name := "x", size := some 3,
         timestamp := some 7 } : FileMsg).tail = msg.tail ∧
      ({ head := "/hold", tail := "a", name := "x", size := some 3,
         timestamp := some 7 } : FileMsg).name = msg.name ∧
      ({ head := "/hold", tail := "a", name := "x", size := some 3,
         timestamp := some 7 } : FileMsg).size = msg.size ∧
      ({ head := "/hold", tail := "a", name := "x", size := some 3,
         timestamp := some 7 } : FileMsg).head = "/hold" :=
  (C8_mover_frame "/hold" (fun _ => true) (fun _ => 7) [msgC8]).2
    { head := "/hold", tail := "a", name := "x", size := some 3,
      timestamp := some 7 }
    (by decide)

end DbbHandoff
